import Mathlib

/-!
Verification of the roadmap-generator core (src/app.py) against its
natural-language specification.  The Python functions are shallowly embedded
as executable Lean definitions over `List Char` / `String`, `List Bool` and
small inductive result types; theorems below settle the spec claims.
-/

namespace Marga

/-! ## Python string primitives used by the source -/

/-- Character class stripped by Python `str.strip()` (ASCII whitespace). -/
def isPySpace (c : Char) : Bool :=
  c = ' ' || c = '\t' || c = '\n' || c = '\r' || c = '\x0b' || c = '\x0c'

/-- Python `str.strip()`: drop leading and trailing whitespace. -/
def pyStrip (s : List Char) : List Char :=
  ((s.dropWhile isPySpace).reverse.dropWhile isPySpace).reverse

/-- Python `str.replace(pat, repl, 1)`: replace the first (leftmost)
occurrence of `pat` by `repl`; if `pat` does not occur, the string is
unchanged. -/
def replaceFirstSub (pat repl : List Char) : List Char → List Char
  | [] => if pat.isEmpty then repl else []
  | c :: cs =>
    if pat.isPrefixOf (c :: cs) then repl ++ (c :: cs).drop pat.length
    else c :: replaceFirstSub pat repl cs

/-- Python `pat in s` substring test. -/
def containsSub (pat : List Char) : List Char → Bool
  | [] => pat.isEmpty
  | c :: cs => pat.isPrefixOf (c :: cs) || containsSub pat cs

/-! ## The heading regular expression

`parse_markdown_roadmap` (app.py lines 121-144) splits its input with
`re.split(r'(## (Day|Week) \d+.*)', markdown_text, flags=re.IGNORECASE)`.
The pattern has TWO capturing groups (the whole heading, and the inner
`(Day|Week)`), and Python's `re.split` inserts the text of every capturing
group between the split segments.  The matcher below embeds this pattern:
a match is `"## "`, then `Day` or `Week` case-insensitively, then a space,
then at least one ASCII digit, then the rest of the line (`.` does not
cross a newline). -/

/-- Match one literal character, returning the remaining input. -/
def matchLit (c : Char) : List Char → Option (List Char)
  | [] => none
  | d :: rest => if d = c then some rest else none

/-- Match a fixed lowercase word case-insensitively; returns the word as it
appeared in the input together with the remaining input. -/
def matchCI : List Char → List Char → Option (List Char × List Char)
  | [], s => some ([], s)
  | _ :: _, [] => none
  | p :: ps, c :: cs =>
    if c.toLower = p then
      match matchCI ps cs with
      | some pr => some (c :: pr.1, pr.2)
      | none => none
    else none

/-- Split off the rest of the current line: the first component is the
longest prefix without `'\n'` (what the regex `.*` consumes), the second is
the remaining input starting at the newline (or empty). -/
def takeLine : List Char → List Char × List Char
  | [] => ([], [])
  | c :: cs =>
    if c = '\n' then ([], c :: cs)
    else
      let pr := takeLine cs
      (c :: pr.1, pr.2)

/-- The alternation `(Day|Week)` under `re.IGNORECASE`. -/
def matchWord (s : List Char) : Option (List Char × List Char) :=
  match matchCI ['d', 'a', 'y'] s with
  | some pr => some pr
  | none => matchCI ['w', 'e', 'e', 'k'] s

/-- Final stage of the heading pattern: `\d+.*` (at least one digit, then
the rest of the line).  Takes the `Day`/`Week` word already matched so it
can assemble the two capture groups. -/
def matchDigitsLine (word : List Char) : List Char → Option (List Char × List Char × List Char)
  | [] => none
  | d :: s6 =>
    if d.isDigit then
      let tl := takeLine s6
      some ('#' :: '#' :: ' ' :: (word ++ ' ' :: d :: tl.1), word, tl.2)
    else none

/-- Attempt to match `(## (Day|Week) \d+.*)` at the start of `s`.  On
success returns `(group1, group2, rest)`: the full matched heading text,
the matched `Day`/`Week` word, and the input after the match. -/
def matchHeading (s : List Char) : Option (List Char × List Char × List Char) :=
  (matchLit '#' s).bind fun s1 =>
  (matchLit '#' s1).bind fun s2 =>
  (matchLit ' ' s2).bind fun s3 =>
  (matchWord s3).bind fun ws =>
  (matchLit ' ' ws.2).bind fun s5 =>
  matchDigitsLine ws.1 s5

/-- True when the heading pattern matches at some position of `s`
(the way `re.split` searches for separators). -/
def hasHeading : List Char → Bool
  | [] => false
  | c :: cs => (matchHeading (c :: cs)).isSome || hasHeading cs

/-! Termination facts for the `re.split` scanning loop: a successful match
consumes at least one character, so the input after the match is shorter. -/

theorem matchLit_length {c : Char} {s r : List Char} (h : matchLit c s = some r) :
    r.length < s.length := by
  cases s with
  | nil => simp [matchLit] at h
  | cons d rest =>
    simp only [matchLit] at h
    by_cases hd : d = c
    · simp [hd] at h; subst h; simp
    · simp [hd] at h

theorem matchCI_length {pat s : List Char} {pr : List Char × List Char}
    (h : matchCI pat s = some pr) : pr.2.length ≤ s.length := by
  induction pat generalizing s pr with
  | nil => simp [matchCI] at h; subst h; simp
  | cons p ps ih =>
    cases s with
    | nil => simp [matchCI] at h
    | cons c cs =>
      simp only [matchCI] at h
      by_cases hc : c.toLower = p
      · simp only [hc, if_true] at h
        cases hpr : matchCI ps cs with
        | none => rw [hpr] at h; simp at h
        | some pr' =>
          rw [hpr] at h
          simp at h
          have := ih hpr
          rw [← h]
          simp
          omega
      · simp [hc] at h

theorem matchWord_length {s : List Char} {pr : List Char × List Char}
    (h : matchWord s = some pr) : pr.2.length ≤ s.length := by
  unfold matchWord at h
  cases hd : matchCI ['d', 'a', 'y'] s with
  | some pr' => rw [hd] at h; cases h; exact matchCI_length hd
  | none => rw [hd] at h; exact matchCI_length h

theorem takeLine_length (s : List Char) : (takeLine s).2.length ≤ s.length := by
  induction s with
  | nil => simp [takeLine]
  | cons c cs ih =>
    simp only [takeLine]
    by_cases hc : c = '\n'
    · simp [hc]
    · simp only [hc, if_false]
      simpa using Nat.le_succ_of_le ih

theorem matchDigitsLine_length {w s : List Char} {g : List Char × List Char × List Char}
    (h : matchDigitsLine w s = some g) : g.2.2.length < s.length + 1 := by
  cases s with
  | nil => simp [matchDigitsLine] at h
  | cons d s6 =>
    simp only [matchDigitsLine] at h
    by_cases hd : d.isDigit
    · simp only [hd, if_true, Option.some_inj] at h
      have hg : g.2.2 = (takeLine s6).2 := by rw [← h]
      have := takeLine_length s6
      rw [hg]
      simp
      omega
    · simp [hd] at h

theorem matchHeading_shrink {s : List Char} {g : List Char × List Char × List Char}
    (h : matchHeading s = some g) : g.2.2.length < s.length := by
  unfold matchHeading at h
  cases h1 : matchLit '#' s with
  | none => rw [h1] at h; simp at h
  | some s1 =>
    rw [h1, Option.some_bind] at h
    cases h2 : matchLit '#' s1 with
    | none => rw [h2] at h; simp at h
    | some s2 =>
      rw [h2, Option.some_bind] at h
      cases h3 : matchLit ' ' s2 with
      | none => rw [h3] at h; simp at h
      | some s3 =>
        rw [h3, Option.some_bind] at h
        cases h4 : matchWord s3 with
        | none => rw [h4] at h; simp at h
        | some ws =>
          rw [h4, Option.some_bind] at h
          cases h5 : matchLit ' ' ws.2 with
          | none => rw [h5] at h; simp at h
          | some s5 =>
            rw [h5, Option.some_bind] at h
            have l6 : g.2.2.length < s5.length + 1 := matchDigitsLine_length h
            have l5 : s5.length < ws.2.length := matchLit_length h5
            have l4 : ws.2.length ≤ s3.length := matchWord_length h4
            have l3 : s3.length < s2.length := matchLit_length h3
            have l2 : s2.length < s1.length := matchLit_length h2
            have l1 : s1.length < s.length := matchLit_length h1
            omega

/-- The scanning loop of `re.split`: walk the input; at each position try
the separator pattern; on a match emit the pending segment and both
capture groups, then continue after the match; otherwise advance one
character.  `acc` holds the current segment reversed. -/
def splitGo (acc : List Char) (s : List Char) : List (List Char) :=
  match s with
  | [] => [acc.reverse]
  | c :: cs =>
    match hm : matchHeading (c :: cs) with
    | some g => acc.reverse :: g.1 :: g.2.1 :: splitGo [] g.2.2
    | none => splitGo (c :: acc) cs
termination_by s.length
decreasing_by
  · exact matchHeading_shrink hm
  · simp

/-- One step of the `range(1, len(steps), 2)` pairing loop of
`parse_markdown_roadmap`: after dropping element 0, consume the segments
two at a time (a trailing unpaired element is dropped, mirroring the
`if i + 1 < len(steps)` guard). -/
def pairUp : List (List Char) → List (List Char × List Char)
  | a :: b :: rest => (a, b) :: pairUp rest
  | _ => []

/-- A parsed roadmap step (the dict appended by `parse_markdown_roadmap`). -/
structure RoadmapStep where
  title : String
  content_markdown : String
deriving DecidableEq, Repr

/-- Loop body of `parse_markdown_roadmap`: `title = steps[i].strip()`,
`content = steps[i+1].strip()`, `clean_title = title.replace('## ', '', 1).strip()`,
and the appended dict is `(clean_title, content.strip())`. -/
def mkStep (t c : List Char) : RoadmapStep :=
  let title := pyStrip t
  let content := pyStrip c
  let clean_title := pyStrip (replaceFirstSub ['#', '#', ' '] [] title)
  ⟨String.mk clean_title, String.mk (pyStrip content)⟩

/-- Embedding of `parse_markdown_roadmap` (app.py lines 121-144):
`re.split` on the two-group heading pattern, then pair the elements from
index 1 onward. -/
def parse_markdown_roadmap (markdown_text : String) : List RoadmapStep :=
  let steps := splitGo [] markdown_text.toList
  match steps with
  | [] => []
  | _ :: rest => (pairUp rest).map (fun pr => mkStep pr.1 pr.2)

/-- Split a character list at each `'\n'` (the lines of the text; matches of
the heading pattern never cross a newline, so "a line matching the pattern"
is meaningful line by line). -/
def splitOnNl : List Char → List (List Char)
  | [] => [[]]
  | c :: cs =>
    if c = '\n' then [] :: splitOnNl cs
    else
      match splitOnNl cs with
      | [] => [[c]]
      | l :: ls => (c :: l) :: ls

/-! ## Progressive unlock state (app.py lines 258-266 and 273-275) -/

/-- Embedding of `handle_completion(index)` (app.py lines 258-266) acting on
the session progress vector: if `index == 0 or progress[index - 1]` set
`progress[index] = True`; otherwise show the `st.error` warning and leave
the vector unchanged.  The second component records whether the completion
was accepted (`false` = the warning path). -/
def handle_completion (progress : List Bool) (index : Nat) : List Bool × Bool :=
  if index = 0 ∨ progress.getD (index - 1) false = true then
    (progress.set index true, true)
  else
    (progress, false)

/-- The monotonic-frontier invariant of the spec: a completed step is the
first step or follows a completed step. -/
def ProgressInv (p : List Bool) : Prop :=
  ∀ i, i < p.length → p.getD i false = true → i = 0 ∨ p.getD (i - 1) false = true

/-- Progress vectors reachable in a session: the initial all-false vector
(`[False] * n`, app.py line 275), any in-range `handle_completion` call, and
the reset performed when the roadmap structure changes. -/
inductive ReachableProgress : List Bool → Prop
  | init (n : Nat) : ReachableProgress (List.replicate n false)
  | step (p : List Bool) (i : Nat) : ReachableProgress p → i < p.length →
      ReachableProgress (handle_completion p i).1
  | reset (p : List Bool) (n : Nat) : ReachableProgress p →
      ReachableProgress (List.replicate n false)

/-- Embedding of the progress (re)initialization in
`display_interactive_roadmap` (app.py lines 273-275): the vector is replaced
by `[False] * len(structured_roadmap)` exactly when it does not exist yet or
its length differs from the parsed step count. -/
def ensure_progress (progress : Option (List Bool)) (stepCount : Nat) : List Bool :=
  match progress with
  | none => List.replicate stepCount false
  | some p => if p.length ≠ stepCount then List.replicate stepCount false else p

/-! ## Generation client (app.py lines 90-119)

The HTTP layer is abstracted by an oracle `responses : Nat → HttpResult`
giving the outcome of each zero-based attempt: either a transport-level
failure (`requests.exceptions.RequestException`, which `raise_for_status`
also produces for 4xx/5xx statuses) or a success-status response with a
parsed JSON body.  Body fields are modeled as present with the expected
type or absent (`Option`), matching the `dict.get` defaults in the source. -/

/-- One element of `candidates[0]['content']['parts']`. -/
structure ResponsePart where
  text : Option String
deriving DecidableEq

/-- The `content` object of a candidate. -/
structure ResponseContent where
  parts : Option (List ResponsePart)
deriving DecidableEq

/-- One element of `candidates`.  `extraFields` records whether the dict has
any key besides `content`, which is what Python's truthiness test
`if candidate` observes on a dict. -/
structure ResponseCandidate where
  content : Option ResponseContent
  extraFields : Bool
deriving DecidableEq

/-- Python truthiness of the candidate dict (nonempty dict). -/
def ResponseCandidate.isTruthy (c : ResponseCandidate) : Bool :=
  c.content.isSome || c.extraFields

/-- A parsed success-status JSON body. -/
structure GeminiResponse where
  candidates : Option (List ResponseCandidate)
deriving DecidableEq

/-- Outcome of the body extraction in app.py lines 103-109. -/
inductive ExtractOutcome
  | ok (t : String)
  | structureError
  | indexErr (msg : String)
deriving DecidableEq

/-- Embedding of lines 103-109:
`candidate = result.get('candidates', [{}])[0]` followed by
`if candidate and candidate.get('content', {}).get('parts', [{}])[0].get('text')`.
A missing `candidates` key defaults to `[{}]`, whose first element is the
empty (falsy) dict; but a PRESENT empty `candidates` list (and likewise an
empty `parts` list) raises `IndexError` at `[0]`, which is caught by the
generic `except Exception` handler, not returned as the structure error.
`None` or `""` for the text is falsy and yields the structure error. -/
def extract_text (result : GeminiResponse) : ExtractOutcome :=
  match result.candidates with
  | some [] => .indexErr "list index out of range"
  | none => .structureError
  | some (candidate :: _) =>
    if candidate.isTruthy then
      match candidate.content with
      | none => .structureError
      | some content =>
        match content.parts with
        | none => .structureError
        | some [] => .indexErr "list index out of range"
        | some (part :: _) =>
          match part.text with
          | none => .structureError
          | some t => if t = "" then .structureError else .ok t
    else .structureError

/-- The string returned by `call_gemini_api_with_retry`, as a tagged value;
`message` below renders the exact source strings. -/
inductive ApiResult
  | text (t : String)
  | keyMissing
  | emptyStructure
  | connectFailed (attempts : Nat) (detail : String)
  | unexpectedError (detail : String)
  | unknownFailure
deriving DecidableEq

/-- The literal strings the source returns for each outcome. -/
def ApiResult.message : ApiResult → String
  | .text t => t
  | .keyMissing =>
      "Error: API Key is missing. Please ensure GEMINI_API_KEY is set in Streamlit Secrets."
  | .emptyStructure =>
      "Error: LLM returned an empty or unexpected response structure."
  | .connectFailed n e =>
      "Error: Failed to connect to LLM after " ++ toString n ++
        " attempts. (Details: " ++ e ++ "). Did you set the API Key secret?"
  | .unexpectedError e =>
      "Error: An unexpected error occurred during API processing: " ++ e
  | .unknownFailure => "Error: Unknown failure during API interaction."

/-- Outcome of one HTTP attempt, as seen by the `try` block. -/
inductive HttpResult
  | transportError (detail : String)
  | success (body : GeminiResponse)

/-- The `for attempt in range(max_retries)` loop (app.py lines 96-119),
evaluated over the list of attempt numbers.  Returns the result together
with the number of HTTP attempts performed and the list of back-off sleeps
(`2 ** attempt`, slept only when `attempt < max_retries - 1`). -/
def retryLoop (responses : Nat → HttpResult) (max_retries : Nat) :
    List Nat → ApiResult × Nat × List Nat
  | [] => (.unknownFailure, 0, [])
  | attempt :: rest =>
    match responses attempt with
    | .success body =>
      match extract_text body with
      | .ok t => (.text t, 1, [])
      | .structureError => (.emptyStructure, 1, [])
      | .indexErr m => (.unexpectedError m, 1, [])
    | .transportError e =>
      if attempt < max_retries - 1 then
        let r := retryLoop responses max_retries rest
        (r.1, r.2.1 + 1, 2 ^ attempt :: r.2.2)
      else (.connectFailed max_retries e, 1, [])

/-- Embedding of `call_gemini_api_with_retry` (app.py lines 90-119):
an empty `API_KEY` (Python `if not API_KEY`) short-circuits before any
attempt; otherwise the retry loop runs over `range(max_retries)`. -/
def call_gemini_api_with_retry (api_key : String) (responses : Nat → HttpResult)
    (max_retries : Nat) : ApiResult × Nat × List Nat :=
  if api_key = "" then (.keyMissing, 0, [])
  else retryLoop responses max_retries (List.range max_retries)

/-! ## Media encoder (app.py lines 83-88) -/

/-- An uploaded file buffer: its bytes, the current stream position, and
the media type exposed as `file_buffer.type`. -/
structure FileBuffer where
  data : List Nat
  pos : Nat
  mediaType : String
deriving DecidableEq

/-- Python `file_buffer.read()`: returns the bytes from the current
position to the end and moves the position to the end. -/
def FileBuffer.readAll (b : FileBuffer) : List Nat × FileBuffer :=
  (b.data.drop b.pos, { b with pos := b.data.length })

/-- Python `file_buffer.seek(0)`. -/
def FileBuffer.seekStart (b : FileBuffer) : FileBuffer :=
  { b with pos := 0 }

/-- The RFC 4648 base64 alphabet used by `base64.b64encode`. -/
def base64Table : List Char :=
  "ABCDEFGHIJKLMNOPQRSTUVWXYZabcdefghijklmnopqrstuvwxyz0123456789+/".toList

/-- Character for one 6-bit group. -/
def b64Char (n : Nat) : Char := base64Table.getD n 'A'

/-- Standard base64 of a byte list: three bytes become four characters,
with `'='` padding for a trailing group of one or two bytes. -/
def base64EncodeBytes : List Nat → List Char
  | [] => []
  | [a] => [b64Char (a / 4), b64Char (a % 4 * 16), '=', '=']
  | [a, b] => [b64Char (a / 4), b64Char (a % 4 * 16 + b / 16), b64Char (b % 16 * 4), '=']
  | a :: b :: c :: rest =>
      b64Char (a / 4) :: b64Char (a % 4 * 16 + b / 16) ::
        b64Char (b % 16 * 4 + c / 64) :: b64Char (c % 64) :: base64EncodeBytes rest

/-- Embedding of `get_base64_image` (app.py lines 83-88): read the buffer,
seek back to the start, and return the base64 text with the media type
(the buffer after the call is returned to expose the stream state). -/
def get_base64_image (file_buffer : FileBuffer) : (String × String) × FileBuffer :=
  let r := file_buffer.readAll
  let after := r.2.seekStart
  ((String.mk (base64EncodeBytes r.1), file_buffer.mediaType), after)

/-! ## Typo normalizer (spec section 4.1; absent from src/app.py) -/

/-- Python `str.title()`: an alphabetic character is uppercased when the
previous character is not alphabetic, and lowercased otherwise. -/
def titleCaseGo : Bool → List Char → List Char
  | _, [] => []
  | prevAlpha, c :: cs =>
    if c.isAlpha then
      (if prevAlpha then c.toLower else c.toUpper) :: titleCaseGo true cs
    else c :: titleCaseGo false cs

/-- Python `str.title()` on a string. -/
def pyTitle (s : String) : String := String.mk (titleCaseGo false s.toList)

/-- Python `str.lower()` (character-wise lowercasing). -/
def pyLower (s : String) : String := String.mk (s.toList.map Char.toLower)

/-- Modelled from the spec: the fixed dictionary of known misspelling
fragments of the Typo Normalizer (spec section 4.1), a component of the
full pipeline variant that is not present in src/app.py; it contains the
documented example pair. -/
def misspellingFixes : List (String × String) := [("baisce", "basics")]

/-- Modelled from the spec: `normalize(topic) -> (canonical_topic, corrected)`
of the Typo Normalizer (spec section 4.1), not present in src/app.py.
It checks the lowercased topic for a known misspelling fragment, replaces a
found fragment with its canonical form, title-cases the result, and reports
a correction when the normalized form differs case-insensitively from the
input. -/
def normalize_topic (topic : String) : String × Bool :=
  let lower := pyLower topic
  let fixed :=
    match misspellingFixes.find? (fun fix => containsSub fix.1.toList lower.toList) with
    | some fix => String.mk (replaceFirstSub fix.1.toList fix.2.toList lower.toList)
    | none => lower
  let canonical := pyTitle fixed
  (canonical, pyLower canonical != pyLower topic)

/-! ## Unfolding lemmas for the scanning loop (its recursion is well-founded,
so concrete runs are evaluated through these equations). -/

theorem splitGo_nil (acc : List Char) : splitGo acc [] = [acc.reverse] := by
  simp [splitGo]

theorem splitGo_pos (acc : List Char) {c : Char} {cs : List Char}
    {g : List Char × List Char × List Char} (h : matchHeading (c :: cs) = some g) :
    splitGo acc (c :: cs) = acc.reverse :: g.1 :: g.2.1 :: splitGo [] g.2.2 := by
  rw [splitGo, h]

theorem splitGo_neg (acc : List Char) {c : Char} {cs : List Char}
    (h : matchHeading (c :: cs) = none) :
    splitGo acc (c :: cs) = splitGo (c :: acc) cs := by
  rw [splitGo, h]

theorem splitGo_eq_pos (acc : List Char) {s : List Char}
    {g : List Char × List Char × List Char} (h : matchHeading s = some g) :
    splitGo acc s = acc.reverse :: g.1 :: g.2.1 :: splitGo [] g.2.2 := by
  cases s with
  | nil => rw [show matchHeading [] = none from rfl] at h; simp at h
  | cons c cs => exact splitGo_pos acc h

theorem splitGo_eq_neg (acc : List Char) {s : List Char} {c : Char} {cs : List Char}
    (hs : s = c :: cs) (h : matchHeading s = none) :
    splitGo acc s = splitGo (c :: acc) cs := by
  subst hs; exact splitGo_neg acc h

/-! ## The heading pattern never crosses a newline

Every component of the pattern rejects `'\n'` (literals, the case-folded
word, the digit) and `.*` stops at `'\n'`, so whether a match starts at a
position depends only on the rest of that position's line.  These lemmas
let claims about "lines matching the heading pattern" transfer to the
whole-text scan performed by `re.split`. -/

theorem matchLit_split {c : Char} (hc : c ≠ '\n') (a b : List Char) :
    matchLit c (a ++ '\n' :: b) = (matchLit c a).map (fun r => r ++ '\n' :: b) := by
  cases a with
  | nil =>
    simp only [List.nil_append, matchLit]
    rw [if_neg (fun h => hc h.symm)]
    rfl
  | cons d rest =>
    simp only [List.cons_append, matchLit]
    by_cases hd : d = c <;> simp [hd]

theorem matchCI_split :
    ∀ pat : List Char, '\n' ∉ pat → ∀ a b : List Char,
      matchCI pat (a ++ '\n' :: b) =
        (matchCI pat a).map (fun pr => (pr.1, pr.2 ++ '\n' :: b)) := by
  intro pat
  induction pat with
  | nil => intro _ a b; rfl
  | cons p ps ih =>
    intro hpat a b
    have hp : p ≠ '\n' := fun h => hpat (h ▸ List.mem_cons_self p ps)
    have hps : '\n' ∉ ps := fun h => hpat (List.mem_cons_of_mem p h)
    cases a with
    | nil =>
      simp only [List.nil_append, matchCI]
      rw [if_neg (show ¬('\n'.toLower = p) from by
        rw [show '\n'.toLower = '\n' from rfl]; exact fun h => hp h.symm)]
      rfl
    | cons c cs =>
      simp only [List.cons_append, matchCI, List.append_eq]
      by_cases hcp : c.toLower = p
      · rw [if_pos hcp, if_pos hcp, ih hps cs b]
        cases hm : matchCI ps cs <;> simp [hm]
      · rw [if_neg hcp, if_neg hcp]; rfl

theorem matchWord_split (a b : List Char) :
    matchWord (a ++ '\n' :: b) =
      (matchWord a).map (fun pr => (pr.1, pr.2 ++ '\n' :: b)) := by
  unfold matchWord
  rw [matchCI_split ['d', 'a', 'y'] (by decide) a b,
    matchCI_split ['w', 'e', 'e', 'k'] (by decide) a b]
  cases hd : matchCI ['d', 'a', 'y'] a <;> simp [hd]

theorem matchDigitsLine_split (w a b : List Char) :
    (matchDigitsLine w (a ++ '\n' :: b)).isSome = (matchDigitsLine w a).isSome := by
  cases a with
  | nil =>
    simp only [List.nil_append, matchDigitsLine]
    rw [if_neg (show ¬('\n'.isDigit = true) from by decide)]
  | cons d s6 =>
    simp only [List.cons_append, matchDigitsLine]
    by_cases hd : d.isDigit <;> simp [hd]

theorem matchHeading_split (a b : List Char) :
    (matchHeading (a ++ '\n' :: b)).isSome = (matchHeading a).isSome := by
  unfold matchHeading
  rw [matchLit_split (by decide) a b]
  cases h1 : matchLit '#' a with
  | none => simp
  | some s1 =>
    simp only [Option.map_some', Option.some_bind]
    rw [matchLit_split (by decide) s1 b]
    cases h2 : matchLit '#' s1 with
    | none => simp
    | some s2 =>
      simp only [Option.map_some', Option.some_bind]
      rw [matchLit_split (by decide) s2 b]
      cases h3 : matchLit ' ' s2 with
      | none => simp
      | some s3 =>
        simp only [Option.map_some', Option.some_bind]
        rw [matchWord_split s3 b]
        cases h4 : matchWord s3 with
        | none => simp
        | some ws =>
          simp only [Option.map_some', Option.some_bind]
          rw [matchLit_split (by decide) ws.2 b]
          cases h5 : matchLit ' ' ws.2 with
          | none => simp
          | some s5 =>
            simp only [Option.map_some', Option.some_bind]
            exact matchDigitsLine_split ws.1 s5 b

theorem hasHeading_append (a b : List Char) :
    hasHeading (a ++ '\n' :: b) = (hasHeading a || hasHeading b) := by
  induction a with
  | nil =>
    have h0 : matchHeading ('\n' :: b) = none := by
      unfold matchHeading
      rw [show matchLit '#' ('\n' :: b) = none from by
        simp only [matchLit]; rw [if_neg (by decide)]]
      rfl
    simp [hasHeading, h0]
  | cons c cs ih =>
    have hm := matchHeading_split (c :: cs) b
    rw [List.cons_append] at hm
    simp only [List.cons_append, hasHeading, List.append_eq, hm, ih]
    rw [Bool.or_assoc]

theorem splitOnNl_decomp (s : List Char) :
    ('\n' ∉ s ∧ splitOnNl s = [s]) ∨
    (∃ a b, s = a ++ '\n' :: b ∧ splitOnNl s = a :: splitOnNl b) := by
  induction s with
  | nil => exact Or.inl ⟨by simp, rfl⟩
  | cons c cs ih =>
    by_cases hc : c = '\n'
    · subst hc
      exact Or.inr ⟨[], cs, rfl, by simp [splitOnNl]⟩
    · rcases ih with ⟨hn, hs⟩ | ⟨a, b, hab, hs⟩
      · refine Or.inl ⟨?_, ?_⟩
        · intro hmem
          rcases List.mem_cons.mp hmem with h | h
          · exact hc h.symm
          · exact hn h
        · simp only [splitOnNl]
          rw [if_neg hc, hs]
      · refine Or.inr ⟨c :: a, b, by rw [hab]; rfl, ?_⟩
        simp only [splitOnNl]
        rw [if_neg hc, hs]

theorem noheading_of_lines :
    ∀ (n : Nat) (s : List Char), s.length ≤ n →
      (∀ l ∈ splitOnNl s, hasHeading l = false) → hasHeading s = false := by
  intro n
  induction n with
  | zero =>
    intro s hlen _
    have : s = [] := List.length_eq_zero.mp (Nat.le_zero.mp hlen)
    subst this; rfl
  | succ m ih =>
    intro s hlen hl
    rcases splitOnNl_decomp s with ⟨_, hs⟩ | ⟨a, b, hab, hs⟩
    · exact hl s (by rw [hs]; exact List.mem_singleton.mpr rfl)
    · subst hab
      rw [hasHeading_append]
      have ha : hasHeading a = false := hl a (by rw [hs]; exact List.mem_cons_self a _)
      have hb : hasHeading b = false := by
        refine ih b ?_ ?_
        · simp only [List.length_append, List.length_cons] at hlen
          omega
        · intro l hlb
          exact hl l (by rw [hs]; exact List.mem_cons_of_mem a hlb)
      rw [ha, hb]
      rfl

theorem splitGo_no_heading :
    ∀ (s : List Char) (acc : List Char), hasHeading s = false →
      splitGo acc s = [acc.reverse ++ s] := by
  intro s
  induction s with
  | nil => intro acc _; rw [splitGo_nil]; simp
  | cons c cs ih =>
    intro acc h
    cases hm : matchHeading (c :: cs) with
    | some g =>
      simp only [hasHeading, hm] at h
      simp at h
    | none =>
      simp only [hasHeading, hm, Option.isSome_none, Bool.false_or] at h
      rw [splitGo_neg acc hm, ih (c :: acc) h]
      simp

/-! ## List access helpers -/

theorem getD_set_self (a : Bool) :
    ∀ (p : List Bool) (i : Nat), i < p.length → (p.set i a).getD i false = a := by
  intro p
  induction p with
  | nil => intro i h; simp at h
  | cons x xs ih =>
    intro i h
    cases i with
    | zero => rfl
    | succ j => simpa [List.getD] using ih j (by simpa using h)

theorem getD_set_ne (a : Bool) :
    ∀ (p : List Bool) (i j : Nat), i ≠ j →
      (p.set i a).getD j false = p.getD j false := by
  intro p
  induction p with
  | nil => intro i j _; rfl
  | cons x xs ih =>
    intro i j hij
    cases i with
    | zero =>
      cases j with
      | zero => exact absurd rfl hij
      | succ j' => rfl
    | succ i' =>
      cases j with
      | zero => rfl
      | succ j' => simpa [List.getD] using ih i' j' (by omega)

theorem getD_replicate_false : ∀ (n i : Nat), (List.replicate n false).getD i false = false := by
  intro n
  induction n with
  | zero => intro i; rfl
  | succ m ih =>
    intro i
    cases i with
    | zero => rfl
    | succ j => simpa [List.replicate, List.getD] using ih j

theorem progressInv_replicate (n : Nat) : ProgressInv (List.replicate n false) := by
  intro i _ htrue
  rw [getD_replicate_false] at htrue
  exact absurd htrue (by simp)

/-! ## Claim theorems -/

/-- Claim C2: for an in-range index, `handle_completion` succeeds exactly
when the step is the first or its predecessor is completed; on success the
vector has that entry set to `true`, and on rejection (the `st.error`
warning path) the vector is returned entirely unchanged. -/
theorem handle_completion_accepts_iff (p : List Bool) (i : Nat) (hi : i < p.length) :
    ((handle_completion p i).2 = true ↔ (i = 0 ∨ p.getD (i - 1) false = true)) ∧
    ((i = 0 ∨ p.getD (i - 1) false = true) →
      handle_completion p i = (p.set i true, true) ∧
      (handle_completion p i).1.getD i false = true) ∧
    (¬(i = 0 ∨ p.getD (i - 1) false = true) → handle_completion p i = (p, false)) := by
  unfold handle_completion
  by_cases hc : i = 0 ∨ p.getD (i - 1) false = true
  · rw [if_pos hc]
    exact ⟨iff_of_true rfl hc, fun _ => ⟨rfl, getD_set_self true p i hi⟩,
      fun hn => absurd hc hn⟩
  · rw [if_neg hc]
    exact ⟨iff_of_false (by simp) hc, fun h => absurd h hc, fun _ => rfl⟩

/-- Claim C2 witness: completing step 1 of `[true, false]` succeeds and
sets it, by the theorem at a concrete input. -/
theorem handle_completion_accepts_iff_witness :
    handle_completion [true, false] 1 = ([true, true], true) ∧
    (handle_completion [true, false] 1).1.getD 1 false = true :=
  (handle_completion_accepts_iff [true, false] 1 (by decide)).2.1 (by decide)

/-- Claim C3: every progress vector reachable from an all-false vector by
`handle_completion` calls and resets satisfies the monotonic-frontier
invariant: a completed entry is the first entry or follows a completed
entry. -/
theorem reachable_progress_invariant (p : List Bool) (h : ReachableProgress p) :
    ProgressInv p := by
  induction h with
  | init n => exact progressInv_replicate n
  | reset q n _ _ => exact progressInv_replicate n
  | step q i hq hlen ih =>
    unfold handle_completion
    by_cases hc : i = 0 ∨ q.getD (i - 1) false = true
    · rw [if_pos hc]
      intro j hj hjtrue
      simp only [List.length_set] at hj
      by_cases hji : j = i
      · subst hji
        rcases hc with h0 | hprev
        · exact Or.inl h0
        · by_cases hj0 : j = 0
          · exact Or.inl hj0
          · refine Or.inr ?_
            rw [getD_set_ne true q j (j - 1) (by omega)]
            exact hprev
      · have hg : (q.set i true).getD j false = q.getD j false :=
          getD_set_ne true q i j (fun he => hji he.symm)
        rw [hg] at hjtrue
        rcases ih j hj hjtrue with h0 | hprev
        · exact Or.inl h0
        · refine Or.inr ?_
          by_cases hji1 : i = j - 1
          · subst hji1
            exact getD_set_self true q (j - 1) hlen
          · rw [getD_set_ne true q i (j - 1) hji1]
            exact hprev
    · rw [if_neg hc]
      exact ih

/-- Claim C3 witness: the invariant holds after completing step 0 from the
initial two-step vector. -/
theorem reachable_progress_invariant_witness :
    ProgressInv (handle_completion (List.replicate 2 false) 0).1 :=
  reachable_progress_invariant _
    (ReachableProgress.step (List.replicate 2 false) 0 (ReachableProgress.init 2) (by decide))

/-- Claim C10: the progress vector is reinitialized to all-false exactly
when it is absent or its length differs from the new step count; when the
lengths agree the prior vector is retained unchanged. -/
theorem ensure_progress_retains (p : List Bool) (n : Nat) :
    (p.length = n → ensure_progress (some p) n = p) ∧
    ensure_progress none n = List.replicate n false ∧
    (p.length ≠ n → ensure_progress (some p) n = List.replicate n false) := by
  refine ⟨fun h => ?_, rfl, fun h => ?_⟩ <;> simp [ensure_progress, h]

/-- Claim C10 witness: a two-entry vector is retained for a two-step
roadmap, by the theorem at a concrete input. -/
theorem ensure_progress_retains_witness :
    ensure_progress (some [true, false]) 2 = [true, false] :=
  (ensure_progress_retains [true, false] 2).1 rfl

/-- Claim C6: with an empty API key the client returns the key-missing
failure immediately, with zero HTTP attempts and no sleeps, for every
response oracle and retry bound; the message is the source's literal
string. -/
theorem missing_key_no_attempt (responses : Nat → HttpResult) (max_retries : Nat) :
    call_gemini_api_with_retry "" responses max_retries = (ApiResult.keyMissing, 0, []) ∧
    ApiResult.keyMissing.message =
      "Error: API Key is missing. Please ensure GEMINI_API_KEY is set in Streamlit Secrets." :=
  ⟨by simp [call_gemini_api_with_retry], rfl⟩

theorem retryLoop_attempts_le (responses : Nat → HttpResult) (m : Nat) :
    ∀ lst : List Nat, (retryLoop responses m lst).2.1 ≤ lst.length := by
  intro lst
  induction lst with
  | nil => simp [retryLoop]
  | cons a rest ih =>
    simp only [retryLoop]
    cases hra : responses a with
    | success body => cases he : extract_text body <;> simp [he]
    | transportError e =>
      by_cases hc : a < m - 1
      · simp only [hc, if_true, List.length_cons]
        exact Nat.succ_le_succ ih
      · simp [hc]

/-- Claim C5: with a configured key and `max_retries = 3` the client makes
at most 3 attempts; a success-status response with well-formed text at
attempt `k` (after `k` transport failures) yields that text after exactly
`k + 1` attempts with sleeps `2 ^ 0, ..., 2 ^ (k - 1)`; three consecutive
transport failures yield the connect-failure result naming 3 attempts and
the last underlying error detail. -/
theorem retry_with_backoff (api_key : String) (responses : Nat → HttpResult)
    (d0 d1 d2 t : String) (body : GeminiResponse) (hkey : api_key ≠ "") :
    (call_gemini_api_with_retry api_key responses 3).2.1 ≤ 3 ∧
    (responses 0 = .success body → extract_text body = .ok t →
      call_gemini_api_with_retry api_key responses 3 = (.text t, 1, [])) ∧
    (responses 0 = .transportError d0 → responses 1 = .success body →
      extract_text body = .ok t →
      call_gemini_api_with_retry api_key responses 3 = (.text t, 2, [1])) ∧
    (responses 0 = .transportError d0 → responses 1 = .transportError d1 →
      responses 2 = .success body → extract_text body = .ok t →
      call_gemini_api_with_retry api_key responses 3 = (.text t, 3, [1, 2])) ∧
    (responses 0 = .transportError d0 → responses 1 = .transportError d1 →
      responses 2 = .transportError d2 →
      call_gemini_api_with_retry api_key responses 3 = (.connectFailed 3 d2, 3, [1, 2]) ∧
      (ApiResult.connectFailed 3 d2).message =
        "Error: Failed to connect to LLM after 3 attempts. (Details: " ++ d2 ++
          "). Did you set the API Key secret?") := by
  have hrange : List.range 3 = [0, 1, 2] := rfl
  unfold call_gemini_api_with_retry
  rw [if_neg hkey, hrange]
  refine ⟨?_, ?_, ?_, ?_, ?_⟩
  · simpa using retryLoop_attempts_le responses 3 [0, 1, 2]
  · intro h0 he
    simp [retryLoop, h0, he]
  · intro h0 h1 he
    simp [retryLoop, h0, h1, he]
  · intro h0 h1 h2 he
    simp [retryLoop, h0, h1, h2, he]
  · intro h0 h1 h2
    exact ⟨by simp [retryLoop, h0, h1, h2], rfl⟩

/-- Claim C5 witness: three transport failures at a concrete oracle give
the connect failure after 3 attempts with sleeps 1, 2, by the theorem. -/
theorem retry_with_backoff_witness :
    call_gemini_api_with_retry "KEY" (fun _ => HttpResult.transportError "netfail") 3 =
      (ApiResult.connectFailed 3 "netfail", 3, [1, 2]) ∧
    (ApiResult.connectFailed 3 "netfail").message =
      "Error: Failed to connect to LLM after 3 attempts. (Details: " ++ "netfail" ++
        "). Did you set the API Key secret?" :=
  (retry_with_backoff "KEY" (fun _ => HttpResult.transportError "netfail")
      "netfail" "netfail" "netfail" "t" ⟨none⟩ (by decide)).2.2.2.2 rfl rfl rfl

/-- Claim C4 counterexample: a success-status body whose `candidates` list
is present but EMPTY makes `[0]` raise `IndexError`, so the client returns
the generic unexpected-error failure, not the empty-or-unexpected-structure
failure the claim requires for every malformed body. -/
theorem empty_candidates_not_structure_error :
    call_gemini_api_with_retry "KEY" (fun _ => HttpResult.success ⟨some []⟩) 3 =
      (ApiResult.unexpectedError "list index out of range", 1, []) ∧
    ApiResult.unexpectedError "list index out of range" ≠ ApiResult.emptyStructure ∧
    (ApiResult.unexpectedError "list index out of range").message ≠
      ApiResult.emptyStructure.message :=
  ⟨by decide, by decide, by decide⟩

/-- Claim C4 (amended): on the first success-status response, a body whose
expected text is absent or falsy yields the empty-or-unexpected-structure
failure immediately and without retry, EXCEPT that a present-but-empty
`candidates` (or `parts`) list raises `IndexError` and yields the generic
unexpected-error failure — also immediately and without retry.  The
structure-error cases are characterized explicitly. -/
theorem malformed_body_immediate_failure (api_key : String) (responses : Nat → HttpResult)
    (body : GeminiResponse) (hkey : api_key ≠ "") (h0 : responses 0 = .success body) :
    (extract_text body = .structureError →
      call_gemini_api_with_retry api_key responses 3 = (.emptyStructure, 1, [])) ∧
    (∀ m, extract_text body = .indexErr m →
      call_gemini_api_with_retry api_key responses 3 = (.unexpectedError m, 1, [])) ∧
    ApiResult.emptyStructure.message =
      "Error: LLM returned an empty or unexpected response structure." ∧
    (body.candidates = none → extract_text body = .structureError) ∧
    (body.candidates = some [] → extract_text body = .indexErr "list index out of range") ∧
    (∀ c rest, body.candidates = some (c :: rest) → c.content = none →
      extract_text body = .structureError) ∧
    (∀ c rest content, body.candidates = some (c :: rest) → c.content = some content →
      content.parts = none → extract_text body = .structureError) ∧
    (∀ c rest content, body.candidates = some (c :: rest) → c.content = some content →
      content.parts = some [] → extract_text body = .indexErr "list index out of range") ∧
    (∀ c rest content part ps, body.candidates = some (c :: rest) →
      c.content = some content → content.parts = some (part :: ps) →
      (part.text = none ∨ part.text = some "") →
      extract_text body = .structureError) := by
  have hrange : List.range 3 = [0, 1, 2] := rfl
  refine ⟨?_, ?_, rfl, ?_, ?_, ?_, ?_, ?_, ?_⟩
  · intro he
    unfold call_gemini_api_with_retry
    rw [if_neg hkey, hrange]
    simp [retryLoop, h0, he]
  · intro m he
    unfold call_gemini_api_with_retry
    rw [if_neg hkey, hrange]
    simp [retryLoop, h0, he]
  · intro hc
    simp [extract_text, hc]
  · intro hc
    simp [extract_text, hc]
  · intro c rest hc hcon
    simp [extract_text, hc, hcon, ResponseCandidate.isTruthy]
  · intro c rest content hc hcon hparts
    simp [extract_text, hc, hcon, hparts, ResponseCandidate.isTruthy]
  · intro c rest content hc hcon hparts
    simp [extract_text, hc, hcon, hparts, ResponseCandidate.isTruthy]
  · intro c rest content part ps hc hcon hparts htext
    rcases htext with ht | ht <;>
      simp [extract_text, hc, hcon, hparts, ht, ResponseCandidate.isTruthy]

/-- Claim C4 witness: a body with no `candidates` key gives the
structure-error failure on the first attempt, by the theorem. -/
theorem malformed_body_immediate_failure_witness :
    call_gemini_api_with_retry "KEY" (fun _ => HttpResult.success ⟨none⟩) 3 =
      (ApiResult.emptyStructure, 1, []) :=
  (malformed_body_immediate_failure "KEY" (fun _ => HttpResult.success ⟨none⟩) ⟨none⟩
      (by decide) rfl).1 rfl

/-- Claim C8: for a buffer read from the start, the media encoder returns
the base64 encoding of the full byte contents with the media type, leaves
the stream position restored to the start, and a subsequent read yields the
same bytes again. -/
theorem get_base64_image_rewindable (b : FileBuffer) (h : b.pos = 0) :
    (get_base64_image b).1.1 = String.mk (base64EncodeBytes b.data) ∧
    (get_base64_image b).1.2 = b.mediaType ∧
    (get_base64_image b).2.pos = 0 ∧
    (get_base64_image b).2.readAll.1 = b.data ∧
    (get_base64_image b).2.readAll.1 = b.readAll.1 := by
  unfold get_base64_image FileBuffer.readAll FileBuffer.seekStart
  simp [h]

/-- Claim C8 witness: the theorem at a concrete three-byte buffer. -/
theorem get_base64_image_rewindable_witness :
    (get_base64_image ⟨[77, 97, 110], 0, "image/png"⟩).1.1 =
      String.mk (base64EncodeBytes [77, 97, 110]) ∧
    (get_base64_image ⟨[77, 97, 110], 0, "image/png"⟩).1.2 = "image/png" ∧
    (get_base64_image ⟨[77, 97, 110], 0, "image/png"⟩).2.pos = 0 ∧
    (get_base64_image ⟨[77, 97, 110], 0, "image/png"⟩).2.readAll.1 = [77, 97, 110] ∧
    (get_base64_image ⟨[77, 97, 110], 0, "image/png"⟩).2.readAll.1 =
      (FileBuffer.mk [77, 97, 110] 0 "image/png").readAll.1 :=
  get_base64_image_rewindable ⟨[77, 97, 110], 0, "image/png"⟩ rfl

/-- Claim C9: the typo normalizer (modelled from the spec) maps
`"blockchain baisce"` to `("Blockchain Basics", true)` and leaves
`"Linear Algebra"` unchanged with no correction. -/
theorem normalize_topic_examples :
    normalize_topic "blockchain baisce" = ("Blockchain Basics", true) ∧
    normalize_topic "Linear Algebra" = ("Linear Algebra", false) :=
  ⟨by decide, by decide⟩

/-- Claim C1 (code-bug evidence): on the spec's own example the parser does
NOT return the two steps the spec states.  `re.split` also interleaves the
inner `(Day|Week)` capture group, so the element pairing is shifted and
three malformed steps come back. -/
theorem parse_markdown_roadmap_group_bug :
    parse_markdown_roadmap "## Day 1\nA\n## Day 2\nB" =
      [⟨"Day 1", "Day"⟩, ⟨"A", "## Day 2"⟩, ⟨"Day", "B"⟩] ∧
    parse_markdown_roadmap "## Day 1\nA\n## Day 2\nB" ≠
      [⟨"Day 1", "A"⟩, ⟨"Day 2", "B"⟩] := by
  have hfull : parse_markdown_roadmap "## Day 1\nA\n## Day 2\nB" =
      [⟨"Day 1", "Day"⟩, ⟨"A", "## Day 2"⟩, ⟨"Day", "B"⟩] := by
    unfold parse_markdown_roadmap
    rw [splitGo_eq_pos []
      (show matchHeading ("## Day 1\nA\n## Day 2\nB".toList) =
        some ("## Day 1".toList, "Day".toList, "\nA\n## Day 2\nB".toList) by decide)]
    rw [splitGo_eq_neg []
      (show ("\nA\n## Day 2\nB".toList) = '\n' :: ("A\n## Day 2\nB".toList) by decide)
      (by decide)]
    rw [splitGo_eq_neg ['\n']
      (show ("A\n## Day 2\nB".toList) = 'A' :: ("\n## Day 2\nB".toList) by decide)
      (by decide)]
    rw [splitGo_eq_neg ['A', '\n']
      (show ("\n## Day 2\nB".toList) = '\n' :: ("## Day 2\nB".toList) by decide)
      (by decide)]
    rw [splitGo_eq_pos ['\n', 'A', '\n']
      (show matchHeading ("## Day 2\nB".toList) =
        some ("## Day 2".toList, "Day".toList, "\nB".toList) by decide)]
    rw [splitGo_eq_neg []
      (show ("\nB".toList) = '\n' :: ("B".toList) by decide)
      (by decide)]
    rw [splitGo_eq_neg ['\n']
      (show ("B".toList) = 'B' :: ("".toList) by decide)
      (by decide)]
    rw [show ("".toList : List Char) = [] from rfl, splitGo_nil]
    decide
  exact ⟨hfull, by rw [hfull]; decide⟩

/-- Claim C7: a markdown string none of whose lines contains a match of the
`## Day <integer>` / `## Week <integer>` heading pattern (a match cannot
span lines) parses to the empty step sequence, not an error. -/
theorem parse_markdown_roadmap_no_heading (markdown_text : String)
    (h : ∀ l ∈ splitOnNl markdown_text.toList, hasHeading l = false) :
    parse_markdown_roadmap markdown_text = [] := by
  have hh : hasHeading markdown_text.toList = false :=
    noheading_of_lines markdown_text.toList.length markdown_text.toList (le_refl _) h
  unfold parse_markdown_roadmap
  rw [splitGo_no_heading markdown_text.toList [] hh]
  rfl

/-- Claim C7 witness: a concrete two-line text with no heading parses to
the empty sequence, by the theorem. -/
theorem parse_markdown_roadmap_no_heading_witness :
    parse_markdown_roadmap "Intro text\nwith no ## Day headings" = [] :=
  parse_markdown_roadmap_no_heading "Intro text\nwith no ## Day headings" (by
    intro l hl
    rw [show splitOnNl ("Intro text\nwith no ## Day headings".toList) =
      ["Intro text".toList, "with no ## Day headings".toList] from by decide] at hl
    rcases List.mem_cons.mp hl with h | h
    · subst h; decide
    · rw [List.mem_singleton.mp h]; decide)

end Marga
